import Mathlib

/-!
Verification development for the go-sse repository (a JSON-shaped key-value
store with JQ-style path expressions and an SSE fan-out layer).

The Go source is shallowly embedded: `interface{}` trees decoded from JSON
become the inductive `Value`; Go's `map[string]interface{}` becomes an
association list with unique-key semantics; in-place mutation becomes
state-passing (each mutating function returns the updated tree); Go `error`
returns become `Except Err`.  JSON numbers (Go `float64`) are modelled as
integers, which covers every number appearing in the claims; their decimal
rendering matches Go's `%v` rendering of integral floats.
-/

set_option maxHeartbeats 1000000

namespace GoSSE

/-- A JSON-shaped document tree, the shallow embedding of the decoded
`interface{}` values the Go code manipulates. -/
inductive Value where
  | null
  | bool (b : Bool)
  | num (n : Int)
  | str (s : String)
  | arr (xs : List Value)
  | obj (fields : List (String × Value))

/-- Whether a value is a mapping (a Go `map[string]interface{}`). -/
def Value.isObjB : Value → Bool
  | .obj _ => true
  | _ => false

/-- Map read `m[k]` (first matching key; the operations below keep keys
effectively unique, matching Go's map semantics). -/
def lookupK {A : Type} (k : String) : List (String × A) → Option A
  | [] => none
  | (k', v) :: rest => if k' = k then some v else lookupK k rest

/-- Map delete `delete(m, k)`.  Removes every occurrence of the key (on
unique-key lists this is exactly Go's `delete`). -/
def eraseK {A : Type} (k : String) : List (String × A) → List (String × A)
  | [] => []
  | (k', v') :: rest =>
    if k' = k then eraseK k rest else (k', v') :: eraseK k rest

/-- Map write `m[k] = v`.  Replaces the first occurrence of the key and
drops any later duplicates, so that on arbitrary association lists it
behaves like Go's unique-key map assignment. -/
def insertK {A : Type} (k : String) (v : A) : List (String × A) → List (String × A)
  | [] => [(k, v)]
  | (k', v') :: rest =>
    if k' = k then (k, v) :: eraseK k rest else (k', v') :: insertK k v rest

theorem lookupK_eraseK_self {A : Type} (k : String) (m : List (String × A)) :
    lookupK k (eraseK k m) = none := by
  induction m with
  | nil => rfl
  | cons p rest ih =>
    obtain ⟨k', v'⟩ := p
    by_cases h : k' = k
    · simp [eraseK, h, ih]
    · simp [eraseK, lookupK, h, ih]

theorem lookupK_insertK_self {A : Type} (k : String) (v : A) (m : List (String × A)) :
    lookupK k (insertK k v m) = some v := by
  induction m with
  | nil => simp [insertK, lookupK]
  | cons p rest ih =>
    obtain ⟨k', v'⟩ := p
    by_cases h : k' = k
    · simp [insertK, h, lookupK]
    · simp [insertK, lookupK, h, ih]

/-- A parsed path segment (`query.PathSegment`); the `Type`, `Value` and
`Index` fields of the Go struct are fused into one constructor each. -/
inductive Seg where
  | root
  | property (name : String)
  | index (i : Nat)
  | wildcard
  deriving DecidableEq

/-- The error outcomes of the embedded operations.  Each constructor stands
for one distinct Go error value (or, for `outOfRange`, a runtime panic). -/
inductive Err where
  /-- Embeds `query.ErrInvalidPath` -/
  | invalidPath
  /-- Embeds `query.ErrPathNotFound` and `store.ErrPathNotFound` -/
  | pathNotFound
  /-- Embeds `errors.New("path must start with a dot")` -/
  | mustStartWithDot
  /-- Embeds `errors.New("invalid path segment: " + match)` -/
  | invalidSegment (tok : String)
  /-- the `"wildcards not supported in ..."` errors of Get/Set/Delete -/
  | wildcardUnsupported
  /-- Embeds `errors.New("value must be a map when setting root")` -/
  | invalidOperation
  /-- a Go runtime index-out-of-range panic (reachable in
  `setValueBySegments`/`deleteBySegments` when only the root segment parses) -/
  | outOfRange
  /-- Embeds `fmt.Errorf("client message queue full")` -/
  | queueFull
  /-- Embeds `fmt.Errorf("client context cancelled")` -/
  | ctxCancelled
  deriving DecidableEq

/-- Embeds `strings.HasPrefix(s, pre)`, computed on the character lists so that it
evaluates by reduction. -/
def strHasPre (s pre : String) : Bool := pre.data.isPrefixOf s.data

/-- Embeds `strings.Split(s, sep)` for a one-character separator (the only form the
source uses), on character lists. -/
def splitChar (sep : Char) : List Char → List (List Char)
  | [] => [[]]
  | c :: rest =>
    let r := splitChar sep rest
    if c = sep then [] :: r
    else
      match r with
      | h :: t => (c :: h) :: t
      | [] => [[c]]

/-- Embeds `strings.Split` on strings (one-character separator). -/
def strSplitChar (s : String) (sep : Char) : List String :=
  (splitChar sep s.data).map String.mk

/-- A character `unicode.IsSpace` reports as white space (the Latin-1 range). -/
def isGoSpace (c : Char) : Bool :=
  c = ' ' || c = '\t' || c = '\n' || c = '\x0b' || c = '\x0c' || c = '\r' ||
  c = '\u0085' || c = '\u00a0'

/-- Embeds `strings.TrimSpace`. -/
def strTrim (s : String) : String :=
  String.mk (((s.data.dropWhile isGoSpace).reverse.dropWhile isGoSpace).reverse)

/-- Embeds `strings.ToLower` (ASCII; the claims involve only ASCII data). -/
def strLower (s : String) : String := String.mk (s.data.map Char.toLower)

/-- Embeds `strings.Contains(s, c)` for a one-character substring. -/
def strHasChar (s : String) (c : Char) : Bool := s.data.contains c

/-- Go regexp `\w` (ASCII word character), used by `propertyRegex ^\.(\w+)$`. -/
def isWordChar (c : Char) : Bool := c.isAlphanum || c = '_'

/-- A character that may appear after the dot in the `pathRegex`
alternative `\.[^.\[\]]+`. -/
def notSegChar (c : Char) : Bool := c ≠ '.' && c ≠ '[' && c ≠ ']'

/-- The in-progress state of the token scan of `Parser.Parse` (the scan is
written as a character-at-a-time state machine so that it is structurally
recursive and evaluates by `rfl`). -/
inductive PMode where
  /-- scanning for the start of the next match -/
  | top
  /-- inside the `\.[^.\[\]]+` alternative, with the run read so far (reversed) -/
  | dotAcc (acc : List Char)
  /-- just consumed `[` -/
  | brStart
  /-- consumed `[*` -/
  | brStar
  /-- inside `\[\d+\]`, with the digit run read so far (reversed) -/
  | brDig (acc : List Char)

/-- Dispatch one character in scanning-for-a-match mode: a dot or an opening
bracket starts a new match attempt, any other character is skipped (exactly
how `FindAllString` treats text that matches nothing).  When a match attempt
fails, the characters it consumed (a run of non-separator characters or of
digits) can never start a match themselves, so re-dispatching only the
current character is equivalent to the regexp engine's retry at every later
position. -/
def pstep (c : Char) : PMode :=
  if c = '.' then .dotAcc [] else if c = '[' then .brStart else .top

/-- The token emitted when input ends: only a nonempty dot-run is a complete
match at end of input. -/
def pflush : PMode → List (List Char)
  | .dotAcc acc => if acc.isEmpty then [] else [('.' :: acc.reverse)]
  | _ => []

/-- The token scan of `Parser.Parse`: Go's
`pathRegex.FindAllString(path, -1)` with `pathRegex = \.[^.\[\]]+|\[\d+\]|\[\*\]`.
Successive leftmost matches are collected; characters that start no match
are skipped. -/
def scanPath (mode : PMode) : List Char → List (List Char)
  | [] => pflush mode
  | c :: rest =>
    match mode with
    | .top => scanPath (pstep c) rest
    | .dotAcc acc =>
      if notSegChar c then scanPath (.dotAcc (c :: acc)) rest
      else if acc.isEmpty then scanPath (pstep c) rest
      else ('.' :: acc.reverse) :: scanPath (pstep c) rest
    | .brStart =>
      if c = '*' then scanPath .brStar rest
      else if c.isDigit then scanPath (.brDig [c]) rest
      else scanPath (pstep c) rest
    | .brStar =>
      if c = ']' then ['[', '*', ']'] :: scanPath .top rest
      else scanPath (pstep c) rest
    | .brDig acc =>
      if c.isDigit then scanPath (.brDig (c :: acc)) rest
      else if c = ']' then ('[' :: acc.reverse ++ [']']) :: scanPath .top rest
      else scanPath (pstep c) rest

/-- All `pathRegex` matches of the input, in order. -/
def pathTokens (l : List Char) : List (List Char) := scanPath .top l

/-- Embeds `strconv.Atoi` on an all-digit token (overflow cannot occur in the
embedding, where indices are unbounded naturals). -/
def digitsToNat (ds : List Char) : Nat :=
  ds.foldl (fun n c => n * 10 + (c.toNat - '0'.toNat)) 0

/-- The classification loop of `Parser.Parse`: each found token is tested
against `propertyRegex`, `arrayIndexRegex` and `wildcardRegex` in turn;
a token matching none of them yields the "invalid path segment" error.
The tokens produced by `pathTokens` have exactly three shapes, so the
regex tests reduce to the checks below. -/
def classifyTokens : List (List Char) → Except Err (List Seg)
  | [] => .ok []
  | t :: rest =>
    match t with
    | '.' :: run =>
      -- propertyRegex `^\.(\w+)$` matches iff every run character is a word character
      if run.all isWordChar then
        match classifyTokens rest with
        | .ok segs => .ok (.property (String.mk run) :: segs)
        | .error e => .error e
      else .error (.invalidSegment (String.mk t))
    | '[' :: more =>
      -- tokens starting with a bracket are either `[*]` or `[digits]`
      if more = ['*', ']'] then
        match classifyTokens rest with
        | .ok segs => .ok (.wildcard :: segs)
        | .error e => .error e
      else
        match classifyTokens rest with
        | .ok segs => .ok (.index (digitsToNat more.dropLast) :: segs)
        | .error e => .error e
    | _ => .error (.invalidSegment (String.mk t))

/-- Embeds `Parser.Parse`.  Empty string and `.` yield the singleton root; other
paths must start with a dot, which is stripped before the token scan (the
stripping is in the source: `path = path[1:]`). -/
def parse (path : String) : Except Err (List Seg) :=
  if path = "" ∨ path = "." then .ok [.root]
  else if strHasPre path (".") then
    match classifyTokens (pathTokens (path.drop 1).data) with
    | .ok segs => .ok (.root :: segs)
    | .error e => .error e
  else .error .mustStartWithDot

/-- A `query.MatchResult`. -/
structure MatchRes where
  path : String
  value : Value

/-- Go's `string(i)` on an integer: the one-rune string whose code point is
`i`, or the replacement character for an invalid code point.  This is what
`matchSegments` uses to splice an index into a concrete path — it is a rune
conversion, not a decimal rendering. -/
def goRuneString (i : Nat) : String :=
  if h : i.isValidChar then String.mk [Char.ofNat i] else "�"

/-- Embeds `Matcher.navigateSegments`, on the segment list after the root (the Go
code starts at index 1). -/
def navSegs (data : Value) : List Seg → Except Err Value
  | [] => .ok data
  | seg :: rest =>
    match seg with
    | .property k =>
      match data with
      | .obj m =>
        match lookupK k m with
        | some v => navSegs v rest
        | none => .error .pathNotFound
      | _ => .error .pathNotFound
    | .index i =>
      match data with
      | .arr xs =>
        if h : i < xs.length then navSegs xs[i] rest else .error .pathNotFound
      | _ => .error .pathNotFound
    | .wildcard => .error .wildcardUnsupported
    | .root => .error .invalidPath

/-- The iteration of `matchSegments` over the elements of a sequence at a
wildcard, carrying the element index.  An error from a recursive call is
skipped (`continue` in the source); the error branch is unreachable for
parsed paths, where `Root` never occurs after the head. -/
def wildFold (f : Value → String → Except Err (List MatchRes)) (cur : String) :
    Nat → List Value → List MatchRes
  | _, [] => []
  | i, x :: tail =>
    (match f x (cur ++ ("[") ++ goRuneString i ++ ("]")) with
     | .ok rs => rs
     | .error _ => []) ++ wildFold f cur (i + 1) tail

/-- Embeds `Matcher.matchSegments`, on the segment list after the root.  The
accumulated concrete path uses Go's `string(i)` rune conversion for
indices, exactly as the source does. -/
def matchSegs (data : Value) (segs : List Seg) (cur : String) :
    Except Err (List MatchRes) :=
  match segs with
  | [] => .ok [⟨cur, data⟩]
  | seg :: rest =>
    match seg with
    | .property k =>
      match data with
      | .obj m =>
        match lookupK k m with
        | some v => matchSegs v rest (cur ++ (".") ++ k)
        | none => .ok []
      | _ => .ok []
    | .index i =>
      match data with
      | .arr xs =>
        if h : i < xs.length then
          matchSegs xs[i] rest (cur ++ ("[") ++ goRuneString i ++ ("]"))
        else .ok []
      | _ => .ok []
    | .wildcard =>
      match data with
      | .arr xs => .ok (wildFold (fun x p => matchSegs x rest p) cur 0 xs)
      | _ => .ok []
    | .root => .error .invalidPath

/-- Embeds `Matcher.setFinalSegment`. -/
def setFinal (data : Value) (seg : Seg) (v : Value) : Except Err Value :=
  match seg with
  | .property k =>
    match data with
    | .obj m => .ok (.obj (insertK k v m))
    | _ => .error .pathNotFound
  | .index i =>
    match data with
    | .arr xs =>
      if i < xs.length then .ok (.arr (xs.set i v)) else .error .pathNotFound
    | _ => .error .pathNotFound
  | .wildcard => .error .wildcardUnsupported
  | .root => .error .invalidPath

/-- Embeds `Matcher.setValueBySegments`, on the segment list after the root.  Note
two properties of the source preserved here: with an empty list the Go code
reads `segments[index]` out of range (a runtime panic, `outOfRange`); and in
the `Property` case the statement `value, exists := mapData[segment.Value]`
shadows the `value` parameter, so the recursive call passes the child node
as the value to set. -/
def setSegs (data : Value) (segs : List Seg) (v : Value) : Except Err Value :=
  match segs with
  | [] => .error .outOfRange
  | [seg] => setFinal data seg v
  | seg :: seg2 :: rest =>
    match seg with
    | .property k =>
      match data with
      | .obj m =>
        match lookupK k m with
        | some child =>
          -- the shadowed `value` makes the child both the data and the value
          match setSegs child (seg2 :: rest) child with
          | .ok child2 => .ok (.obj (insertK k child2 m))
          | .error e => .error e
        | none =>
          -- create missing intermediate objects
          match seg2 with
          | .property _ =>
            match setSegs (.obj []) (seg2 :: rest) (.obj []) with
            | .ok child2 => .ok (.obj (insertK k child2 m))
            | .error e => .error e
          | .index i =>
            match setSegs (.arr (List.replicate (i + 1) .null)) (seg2 :: rest)
                (.arr (List.replicate (i + 1) .null)) with
            | .ok child2 => .ok (.obj (insertK k child2 m))
            | .error e => .error e
          | _ => .error .pathNotFound
      | _ => .error .pathNotFound
    | .index i =>
      match data with
      | .arr xs =>
        if h : i < xs.length then
          match setSegs xs[i] (seg2 :: rest) v with
          | .ok child2 => .ok (.arr (xs.set i child2))
          | .error e => .error e
        else .error .pathNotFound
      | _ => .error .pathNotFound
    | .wildcard => .error .wildcardUnsupported
    | .root => .error .invalidPath

/-- Embeds `Matcher.deleteFinalSegment`: removes a mapping entry; for a sequence
index, replaces the element with null. -/
def delFinal (data : Value) (seg : Seg) : Except Err Value :=
  match seg with
  | .property k =>
    match data with
    | .obj m =>
      match lookupK k m with
      | some _ => .ok (.obj (eraseK k m))
      | none => .error .pathNotFound
    | _ => .error .pathNotFound
  | .index i =>
    match data with
    | .arr xs =>
      if i < xs.length then .ok (.arr (xs.set i .null)) else .error .pathNotFound
    | _ => .error .pathNotFound
  | .wildcard => .error .wildcardUnsupported
  | .root => .error .invalidPath

/-- Embeds `Matcher.deleteBySegments`, on the segment list after the root (same
out-of-range panic as `setSegs` on the empty list). -/
def delSegs (data : Value) (segs : List Seg) : Except Err Value :=
  match segs with
  | [] => .error .outOfRange
  | [seg] => delFinal data seg
  | seg :: seg2 :: rest =>
    match seg with
    | .property k =>
      match data with
      | .obj m =>
        match lookupK k m with
        | some child =>
          match delSegs child (seg2 :: rest) with
          | .ok child2 => .ok (.obj (insertK k child2 m))
          | .error e => .error e
        | none => .error .pathNotFound
      | _ => .error .pathNotFound
    | .index i =>
      match data with
      | .arr xs =>
        if h : i < xs.length then
          match delSegs xs[i] (seg2 :: rest) with
          | .ok child2 => .ok (.arr (xs.set i child2))
          | .error e => .error e
        else .error .pathNotFound
      | _ => .error .pathNotFound
    | .wildcard => .error .wildcardUnsupported
    | .root => .error .invalidPath

/-- Embeds `Matcher.Get`: parse then navigate, skipping the root segment. -/
def matcherGet (data : Value) (path : String) : Except Err Value :=
  match parse path with
  | .ok segs => navSegs data (segs.drop 1)
  | .error e => .error e

/-- Embeds `Matcher.Match`: parse then match, skipping the root segment. -/
def matcherMatch (data : Value) (path : String) : Except Err (List MatchRes) :=
  match parse path with
  | .ok segs => matchSegs data (segs.drop 1) ("")
  | .error e => .error e

/-- Embeds `Matcher.Set`: parse then set, skipping the root segment.  Returns the
updated tree (the Go code mutates `data` in place). -/
def matcherSet (data : Value) (path : String) (v : Value) : Except Err Value :=
  match parse path with
  | .ok segs => setSegs data (segs.drop 1) v
  | .error e => .error e

/-- Embeds `Matcher.Delete`: parse then delete, skipping the root segment.  Returns
the updated tree. -/
def matcherDelete (data : Value) (path : String) : Except Err Value :=
  match parse path with
  | .ok segs => delSegs data (segs.drop 1)
  | .error e => .error e

/-- The in-progress state of the scan for bracketed `[key=value]` predicates
(Go regexp `\[([^=\[\]]+)=([^\[\]]+)\]`), written as a character state
machine for the same reason as `scanPath`. -/
inductive CMode where
  /-- scanning for the start of the next match -/
  | ctop
  /-- inside the key class after `[`, with the key read so far (reversed) -/
  | ckey (acc : List Char)
  /-- inside the value class after `=` -/
  | cval (kacc vacc : List Char)

/-- The characters held by an unfinished match attempt, in input order;
they are plain text when the attempt fails or input ends. -/
def cpend : CMode → List Char
  | .ctop => []
  | .ckey acc => '[' :: acc.reverse
  | .cval kacc vacc => '[' :: kacc.reverse ++ '=' :: vacc.reverse

/-- The simultaneous `FindAllStringSubmatch` and `ReplaceAllString(…, "")`
of the predicate regexp: returns the matched `(key, value)` pairs in order
and the input with every matched span removed.  Characters consumed by a
failed attempt cannot start a match (the key and value classes both exclude
`[`), so re-dispatching only the current character is again equivalent to
the regexp engine's retries. -/
def condScan (mode : CMode) : List Char → List (String × String) × List Char
  | [] => ([], cpend mode)
  | c :: rest =>
    match mode with
    | .ctop =>
      if c = '[' then condScan (.ckey []) rest
      else
        let r := condScan .ctop rest
        (r.1, c :: r.2)
    | .ckey acc =>
      if c = '=' then
        if acc.isEmpty then
          -- the key class needs at least one character
          let r := condScan .ctop rest
          (r.1, '[' :: '=' :: r.2)
        else condScan (.cval acc []) rest
      else if c = '[' then
        let r := condScan (.ckey []) rest
        (r.1, ('[' :: acc.reverse) ++ r.2)
      else if c = ']' then
        let r := condScan .ctop rest
        (r.1, ('[' :: acc.reverse) ++ (']' :: r.2))
      else condScan (.ckey (c :: acc)) rest
    | .cval kacc vacc =>
      if c = ']' then
        if vacc.isEmpty then
          -- the value class needs at least one character
          let r := condScan .ctop rest
          (r.1, ('[' :: kacc.reverse ++ ['=']) ++ (']' :: r.2))
        else
          let r := condScan .ctop rest
          ((String.mk kacc.reverse, String.mk vacc.reverse) :: r.1, r.2)
      else if c = '[' then
        let r := condScan (.ckey []) rest
        (r.1, ('[' :: kacc.reverse ++ '=' :: vacc.reverse) ++ r.2)
      else condScan (.cval kacc (c :: vacc)) rest

/-- All `[key=value]` matches of a string together with the cleaned string. -/
def condMatches (s : String) : List (String × String) × String :=
  let r := condScan .ctop s.data
  (r.1, String.mk r.2)

/-- A `query.Filter` as defined in the current filter source (with
key-value conditions). -/
structure Filter where
  path : String
  expression : String
  conditions : List (String × String)

/-- Embeds `query.NewFilter` plus `parseKeyValueConditions`: extract the bracketed
predicates (keys and values trimmed) and strip them from the path; with no
match the path stays the full expression. -/
def mkFilter (expr : String) : Filter :=
  let r := condMatches expr
  if r.1.isEmpty then ⟨expr, expr, []⟩
  else ⟨r.2, expr, r.1.map (fun kv => (strTrim kv.1, strTrim kv.2))⟩

/-- Split a character list on the literal separator `[*]`
(`strings.Split(s, "[*]")`). -/
def splitWild : List Char → List (List Char)
  | [] => [[]]
  | '[' :: '*' :: ']' :: rest => [] :: splitWild rest
  | c :: rest =>
    match splitWild rest with
    | h :: t => (c :: h) :: t
    | [] => [[c]]

/-- Split off the leading digit run. -/
def spanDigits : List Char → List Char × List Char
  | [] => ([], [])
  | c :: rest =>
    if c.isDigit then
      let r := spanDigits rest
      (c :: r.1, r.2)
    else ([], c :: rest)

/-- Matching against the anchored regex `Filter.pathToRegexPattern` builds
from a wildcard filter path (quote the path, turn each `\[\*\]` into
`\[\d+\]`): the candidate must be the literal pieces of the filter path
interleaved with `[digits]` groups.  The digit run is forced (its end is
the first non-digit, which must be `]`), so this greedy matcher is exactly
the regex. -/
def wildPieces : List (List Char) → List Char → Bool
  | [], _ => false
  | [piece], l => l = piece
  | piece :: rest@(_ :: _), l =>
    if piece.isPrefixOf l then
      match l.drop piece.length with
      | '[' :: l2 =>
        match spanDigits l2 with
        | (_ :: _, ']' :: l3) => wildPieces rest l3
        | _ => false
      | _ => false
    else false

/-- The wildcard branch of `Filter.IsMatch`: compile the pattern and test
the changed path against it. -/
def wildRegexMatch (fpath p : String) : Bool :=
  wildPieces (splitWild fpath.data) p.data

/-- Insert into a key-sorted association list of rendered values (`fmt` and
`encoding/json` print Go maps with sorted keys). -/
def insSorted (p : String × String) : List (String × String) → List (String × String)
  | [] => [p]
  | q :: rest => if p.1 < q.1 then p :: q :: rest else q :: insSorted p rest

/-- Sort an association list of rendered values by key. -/
def sortPairs : List (String × String) → List (String × String)
  | [] => []
  | p :: rest => insSorted p (sortPairs rest)

mutual
/-- Embeds `fmt.Sprintf("%v", x)` on embedded values.  Scalars render exactly as
Go renders decoded JSON scalars: `<nil>`, `true`/`false`, shortest decimal
for numbers, and the literal string; sequences as space-separated elements
in brackets; mappings as `map[k:v ...]` with sorted keys. -/
def goFormat : Value → String
  | .null => "<nil>"
  | .bool true => "true"
  | .bool false => "false"
  | .num n => toString n
  | .str s => s
  | .arr xs => "[" ++ ((" ").intercalate (goFormatList xs)) ++ "]"
  | .obj m =>
    "map[" ++
      ((" ").intercalate ((sortPairs (goFormatPairs m)).map
        (fun kv => kv.1 ++ (":") ++ kv.2))) ++ "]"

/-- The rendered elements of a sequence. -/
def goFormatList : List Value → List String
  | [] => []
  | x :: rest => goFormat x :: goFormatList rest

/-- The rendered entries of a mapping (sorted by the caller; rendering does
not depend on the order). -/
def goFormatPairs : List (String × Value) → List (String × String)
  | [] => []
  | kv :: rest => (kv.1, goFormat kv.2) :: goFormatPairs rest
end

/-- JSON string escaping for `encoding/json` output (the HTML escaping of
`<`, `>`, `&` is omitted; no claim observes it). -/
def jsonEscape (s : String) : String :=
  String.mk (s.data.foldr (fun c acc =>
    if c = '"' then '\\' :: '"' :: acc
    else if c = '\\' then '\\' :: '\\' :: acc
    else if c = '\n' then '\\' :: 'n' :: acc
    else if c = '\t' then '\\' :: 't' :: acc
    else if c = '\r' then '\\' :: 'r' :: acc
    else c :: acc) [])

mutual
/-- Embeds `json.Marshal` on embedded values (maps with sorted keys, as the Go
encoder emits). -/
def jsonMarshal : Value → String
  | .null => "null"
  | .bool true => "true"
  | .bool false => "false"
  | .num n => toString n
  | .str s => "\"" ++ jsonEscape s ++ "\""
  | .arr xs => "[" ++ ((",").intercalate (jsonMarshalList xs)) ++ "]"
  | .obj m =>
    "\x7b" ++
      ((",").intercalate ((sortPairs (jsonMarshalPairs m)).map
        (fun kv => "\"" ++ jsonEscape kv.1 ++ "\":" ++ kv.2))) ++
      "\x7d"

/-- The rendered elements of a sequence. -/
def jsonMarshalList : List Value → List String
  | [] => []
  | x :: rest => jsonMarshal x :: jsonMarshalList rest

/-- The rendered entries of a mapping. -/
def jsonMarshalPairs : List (String × Value) → List (String × String)
  | [] => []
  | kv :: rest => (kv.1, jsonMarshal kv.2) :: jsonMarshalPairs rest
end

/-- The per-condition test of `Filter.matchesConditions`, preserved exactly
as the source has it: a field of string type is never compared (its branch
only assigns the scratch variable), and the other branches compare the
lower-cased, trimmed condition value with the condition value itself,
ignoring the field's actual value. -/
def condBranchOk (condValue : String) (field : Value) : Bool :=
  match field with
  | .str _ => true
  | _ => strTrim (strLower condValue) = condValue

/-- The array-item loop of `Filter.matchesConditions` (no early break: a
failed condition clears the flag and the loop continues). -/
def itemCondsFold (conds : List (String × String)) (m : List (String × Value)) : Bool :=
  conds.foldl (fun acc c =>
    match lookupK c.1 m with
    | some field => if condBranchOk c.2 field then acc else false
    | none => false) true

/-- Embeds `Filter.matchesConditions`. -/
def matchesConditions (f : Filter) (value : Value) : Bool :=
  if f.conditions.isEmpty then true
  else
    let dataToCheck : Option Value :=
      if strHasPre f.path (".data.") then
        -- navigate from a root-shaped value to the field the filter names
        match value with
        | .obj vm =>
          match lookupK ("data") vm with
          | some (.obj dm) =>
            match lookupK (f.path.drop 6) dm with
            | some fv => some fv
            | none => none
          | _ => none
        | _ => none
      else some value
    match dataToCheck with
    | none => false
    | some d =>
      match d with
      | .arr xs =>
        -- at least one item must satisfy every condition
        xs.any (fun item =>
          match item with
          | .obj m => itemCondsFold f.conditions m
          | _ => false)
      | .obj m =>
        -- early return on the first failed condition
        f.conditions.all (fun c =>
          match lookupK c.1 m with
          | some field => condBranchOk c.2 field
          | none => false)
      | _ => false

/-- Whether `[*]` occurs in a character list. -/
def hasWildChars : List Char → Bool
  | '[' :: '*' :: ']' :: _ => true
  | _ :: rest => hasWildChars rest
  | [] => false

/-- Embeds `strings.Contains(s, "[*]")`. -/
def hasWildSub (s : String) : Bool := hasWildChars s.data

/-- Embeds `Filter.IsMatch`: exact match, ancestor/descendant prefix tests, then
the wildcard regex; each positive branch additionally checks the key-value
conditions when present. -/
def isMatch (f : Filter) (path : String) (value : Value) : Bool :=
  if path = f.path then
    if f.conditions.isEmpty then true else matchesConditions f value
  else if strHasPre f.path (path ++ (".")) || strHasPre f.path (path ++ ("[")) then
    if f.conditions.isEmpty then true else matchesConditions f value
  else if strHasPre path (f.path ++ (".")) || strHasPre path (f.path ++ ("[")) then
    if f.conditions.isEmpty then true else matchesConditions f value
  else if hasWildSub f.path then
    if wildRegexMatch f.path path then
      if f.conditions.isEmpty then true else matchesConditions f value
    else false
  else false

/-- Embeds `Client.ShouldNotify`: the first loop returns true as soon as some
filter path starts with the changed path (its inner `.data.positions`
special case also only returns true); the second loop falls back to
`Filter.IsMatch`. -/
def shouldNotify (filters : List Filter) (path : String) (value : Value) : Bool :=
  filters.any (fun f => strHasPre f.path path) ||
    filters.any (fun f => isMatch f path value)

/-- The filter list built by `NewClient`: one filter per nonempty
expression, and the single default filter `.` when none were provided. -/
def newClientFilters (filterExprs : List String) : List Filter :=
  let fs := (filterExprs.filter (fun e => e ≠ "")).map mkFilter
  if fs.isEmpty then [mkFilter (".")] else fs

/-- The per-item conjunction of `applyKeyValueFilters` (server.go) and
`applyKeyValueFiltering` (kv.go): every condition key must exist and the
trimmed `%v` rendering of its value must equal the condition value.  Both
Go functions break out of the loop on the first failure. -/
def condAllOk (m : List (String × Value)) : List (String × String) → Bool
  | [] => true
  | c :: rest =>
    match lookupK c.1 m with
    | some field => if strTrim (goFormat field) = c.2 then condAllOk m rest else false
    | none => false

/-- The array loop shared by the two key-value filtering functions: keep, in
order, the elements that are mappings satisfying every condition. -/
def keepMatching (conds : List (String × String)) : List Value → List Value
  | [] => []
  | item :: rest =>
    match item with
    | .obj m =>
      if condAllOk m conds then item :: keepMatching conds rest
      else keepMatching conds rest
    | _ => keepMatching conds rest

/-- Embeds `applyKeyValueFilters` (server.go): filters an array, tests a mapping
directly, and reports in the boolean whether filtering applied. -/
def applyKeyValueFilters (data : Value) (conds : List (String × String)) :
    Value × Bool :=
  if conds.isEmpty then (data, false)
  else
    match data with
    | .null => (.null, false)
    | .arr xs => (.arr (keepMatching conds xs), true)
    | .obj m => if condAllOk m conds then (.obj m, true) else (.obj m, false)
    | other => (other, false)

/-- The condition-string parsing of `applyKeyValueFiltering` (kv.go): each
`"k=v"` string is split on `=`; malformed strings are dropped, and later
conditions for the same key overwrite earlier ones (Go stores them in a
map). -/
def parseCondPairs (conds : List String) : List (String × String) :=
  conds.foldl (fun acc c =>
    match strSplitChar c '=' with
    | [k, v] => insertK k v acc
    | _ => acc) []

/-- Embeds `applyKeyValueFiltering` (kv.go): same array filtering as the server
function, but non-array data (mappings included) passes through unchanged. -/
def applyKeyValueFiltering (data : Value) (conds : List String) : Value :=
  if conds.isEmpty then data
  else
    match data with
    | .null => .null
    | .arr xs => .arr (keepMatching (parseCondPairs conds) xs)
    | other => other

/-- The key-value condition extraction shared by `KVStore.Get` and
`KVStore.FindMatches`: behind a cheap containment gate, collect the
`[k=v]` matches as `"k=v"` strings (key and value trimmed) and remove the
matched spans from the path. -/
def extractGate (path : String) : List String × String :=
  if strHasChar path '[' && strHasChar path '=' && strHasChar path ']' then
    let r := condMatches path
    if r.1.isEmpty then ([], path)
    else (r.1.map (fun kv => strTrim kv.1 ++ ("=") ++ strTrim kv.2), r.2)
  else ([], path)

/-- The `.data.X` special case shared by `KVStore.Get` and
`KVStore.FindMatches`: for a cleaned path starting `.data.` or `data.`,
look up the last dot-separated component directly in the top-level `data`
mapping, applying the extracted conditions to the result. -/
def dataShortcut (store : List (String × Value)) (clean : String)
    (conds : List String) : Option Value :=
  if strHasPre clean (".data.") || strHasPre clean ("data.") then
    let parts := strSplitChar clean '.'
    if parts.length > 1 then
      match parts.getLast? with
      | some target =>
        match lookupK ("data") store with
        | some (.obj dm) =>
          match lookupK target dm with
          | some fv =>
            some (if conds.isEmpty then fv else applyKeyValueFiltering fv conds)
          | none => none
        | _ => none
      | none => none
    else none
  else none

/-- Embeds `KVStore.Get`: condition extraction, the `.data.X` shortcut, the root
case, then matcher navigation with condition filtering. -/
def kvGet (store : List (String × Value)) (path : String) : Except Err Value :=
  let r := extractGate path
  match dataShortcut store r.2 r.1 with
  | some v => .ok v
  | none =>
    if r.2 = "" ∨ r.2 = "." then .ok (.obj store)
    else
      match matcherGet (.obj store) r.2 with
      | .ok v => .ok (if r.1.isEmpty then v else applyKeyValueFiltering v r.1)
      | .error e => .error e

/-- The post-match condition filtering of `KVStore.FindMatches`: results
whose filtered value is an empty array are dropped. -/
def filterResults (conds : List String) : List MatchRes → List MatchRes
  | [] => []
  | rres :: rest =>
    match applyKeyValueFiltering rres.value conds with
    | .arr [] => filterResults conds rest
    | fv => ⟨rres.path, fv⟩ :: filterResults conds rest

/-- Embeds `KVStore.FindMatches`: the same extraction and `.data.X` shortcut as
`Get` (the shortcut result carries the original path), then matcher
matching with condition filtering. -/
def kvFindMatches (store : List (String × Value)) (path : String) :
    Except Err (List MatchRes) :=
  let r := extractGate path
  match dataShortcut store r.2 r.1 with
  | some v => .ok [⟨path, v⟩]
  | none =>
    match matcherMatch (.obj store) r.2 with
    | .ok results =>
      .ok (if r.1.isEmpty then results else filterResults r.1 results)
    | .error e => .error e

/-- The root value of a successful mutation must again be a mapping; in Go
this is enforced by the type of the store's `data` field, which is mutated
in place.  The error branch is unreachable (proved with claim C8). -/
def valueToObj : Value → Except Err (List (String × Value))
  | .obj m => .ok m
  | _ => .error .outOfRange

/-- Embeds `KVStore.Set`: setting the root requires a mapping value; other paths
go through `Matcher.Set`. -/
def kvSet (store : List (String × Value)) (path : String) (v : Value) :
    Except Err (List (String × Value)) :=
  if path = "" ∨ path = "." then
    match v with
    | .obj o => .ok o
    | _ => .error .invalidOperation
  else
    match matcherSet (.obj store) path v with
    | .ok t => valueToObj t
    | .error e => .error e

/-- Embeds `KVStore.Delete`: deleting the root resets the store to an empty
mapping; other paths go through `Matcher.Delete`. -/
def kvDelete (store : List (String × Value)) (path : String) :
    Except Err (List (String × Value)) :=
  if path = "" ∨ path = "." then .ok []
  else
    match matcherDelete (.obj store) path with
    | .ok t => valueToObj t
    | .error e => .error e

/-- Embeds `KVStore.Initialize`: replace the tree with the given mapping (the Go
signature only accepts a `map[string]interface{}`). -/
def kvInitialize (data : List (String × Value)) : Value := .obj data

/-- The payload argument of `Client.Send` (`data interface{}`): a string, a
byte slice, or a value to be JSON-marshalled. -/
inductive SendData where
  | str (s : String)
  | bytes (b : String)
  | json (v : Value)

/-- The state of an SSE client (`sse.Client`) observable by `Send`: its
filters, whether its context was cancelled, and the contents of its
buffered message channel (capacity `messageCap`). -/
structure ClientState where
  filters : List Filter
  ctxCancelled : Bool
  messageChan : List String

/-- The capacity of `Client.MessageChan` (`make(chan []byte, 100)`). -/
def messageCap : Nat := 100

/-- The `.data.positions` special case at the top of `Client.Send`: when the
payload is a mapping whose `filtered` field is a boolean and some filter
path is `.data.positions` or `data.positions`, the payload's `value` field
is replaced by its `data.positions` sub-value when present. -/
def positionsRewrite (filters : List Filter) (d : SendData) : SendData :=
  match d with
  | .json (.obj ev) =>
    match lookupK ("filtered") ev with
    | some (.bool _) =>
      if filters.any (fun f => f.path = ".data.positions" || f.path = "data.positions") then
        match lookupK ("value") ev with
        | some (.obj vm) =>
          match lookupK ("data") vm with
          | some (.obj dm) =>
            match lookupK ("positions") dm with
            | some pos => .json (.obj (insertK ("value") pos ev))
            | none => d
          | _ => d
        | _ => d
      else d
    | _ => d
  | _ => d

/-- Embeds `Client.Send`: reject when the context is cancelled, apply the
positions rewrite, serialize, format the SSE frame, and enqueue without
blocking — a full channel drops the frame and reports a queue-full error.
Returns the updated client state with the operation's outcome. -/
def send (st : ClientState) (event : String) (d : SendData) :
    ClientState × Except Err Unit :=
  if st.ctxCancelled then (st, .error .ctxCancelled)
  else
    let d2 := positionsRewrite st.filters d
    let dataStr :=
      match d2 with
      | .str s => s
      | .bytes b => b
      | .json v => jsonMarshal v
    let message := "event: " ++ event ++ "\ndata: " ++ dataStr ++ "\n\n"
    if st.messageChan.length < messageCap then
      ({ st with messageChan := st.messageChan ++ [message] }, .ok ())
    else (st, .error .queueFull)

/-- The element-keeping predicate exactly as the specification words it for
claim C7, with the single amendment the code forces: the stringified field
value is compared after trimming surrounding white space.  (Everything
else follows the spec text: the element must be a mapping, every predicate
key must exist, and the comparison is a conjunction over all predicates.) -/
def specKeepsElement (conds : List (String × String)) (v : Value) : Bool :=
  match v with
  | .obj m =>
    conds.all (fun c =>
      match lookupK c.1 m with
      | some field => strTrim (goFormat field) == c.2
      | none => false)
  | _ => false

theorem getElem_set_self' {α : Type} (l : List α) (i : Nat) (a : α)
    (h : i < (l.set i a).length) : (l.set i a)[i] = a := by
  induction l generalizing i with
  | nil => simp at h
  | cons x rest ih =>
    cases i with
    | zero => rfl
    | succ n =>
      simp only [List.set]
      exact ih n (by simpa using h)

/-- After a successful `deleteBySegments`, navigating the same segments
finds nothing (final property segment: the entry was removed) or null
(final index segment: the slot was overwritten), and navigating to the
parent of a final index segment sees the same sequence with only that slot
replaced by null. -/
theorem delSegs_nav (segs : List Seg) :
    ∀ (data data' : Value), delSegs data segs = .ok data' →
      ((∀ k, segs.getLast? = some (.property k) →
          navSegs data' segs = .error .pathNotFound) ∧
       (∀ i, segs.getLast? = some (.index i) →
          navSegs data' segs = .ok .null ∧
          ∀ xs, navSegs data segs.dropLast = .ok (.arr xs) →
            navSegs data' segs.dropLast = .ok (.arr (xs.set i .null)))) := by
  induction segs with
  | nil =>
    intro data data' h
    simp [delSegs] at h
  | cons s rest ih =>
    intro data data' h
    cases rest with
    | nil =>
      -- final segment: delFinal
      cases s with
      | root => simp [delSegs, delFinal] at h
      | wildcard => simp [delSegs, delFinal] at h
      | property k =>
        cases data with
        | obj m =>
          cases hl : lookupK k m with
          | none => simp [delSegs, delFinal, hl] at h
          | some child =>
            simp [delSegs, delFinal, hl] at h
            subst h
            refine ⟨?_, ?_⟩
            · intro k2 hk2
              simp at hk2
              subst hk2
              simp [navSegs, lookupK_eraseK_self]
            · intro i hi
              simp at hi
        | null => simp [delSegs, delFinal] at h
        | bool b => simp [delSegs, delFinal] at h
        | num n => simp [delSegs, delFinal] at h
        | str s2 => simp [delSegs, delFinal] at h
        | arr xs => simp [delSegs, delFinal] at h
      | index i =>
        cases data with
        | arr xs =>
          by_cases hb : i < xs.length
          · simp [delSegs, delFinal, hb] at h
            subst h
            refine ⟨?_, ?_⟩
            · intro k2 hk2
              simp at hk2
            · intro i2 hi2
              simp at hi2
              subst hi2
              have hlen : i < (xs.set i Value.null).length := by simpa using hb
              have hget := getElem_set_self' xs i Value.null hlen
              constructor
              · simp [navSegs, hlen, hget, hb]
              · intro xs2 hxs2
                simp [navSegs] at hxs2
                subst hxs2
                simp [navSegs]
          · simp [delSegs, delFinal, hb] at h
        | null => simp [delSegs, delFinal] at h
        | bool b => simp [delSegs, delFinal] at h
        | num n => simp [delSegs, delFinal] at h
        | str s2 => simp [delSegs, delFinal] at h
        | obj m => simp [delSegs, delFinal] at h
    | cons s2 rest2 =>
      -- intermediate segment; the recursion descends and writes back
      have hlast : (s :: s2 :: rest2).getLast? = (s2 :: rest2).getLast? := by
        simp [List.getLast?_cons_cons]
      have hdrop : (s :: s2 :: rest2).dropLast = s :: (s2 :: rest2).dropLast := rfl
      cases s with
      | root => simp [delSegs] at h
      | wildcard => simp [delSegs] at h
      | property k =>
        cases data with
        | obj m =>
          cases hl : lookupK k m with
          | none => simp [delSegs, hl] at h
          | some child =>
            cases hrec : delSegs child (s2 :: rest2) with
            | error e => simp [delSegs, hl, hrec] at h
            | ok child2 =>
              simp [delSegs, hl, hrec] at h
              subst h
              have ihc := ih child child2 hrec
              have hstep : ∀ L, navSegs (Value.obj (insertK k child2 m))
                  (Seg.property k :: L) = navSegs child2 L := by
                intro L
                simp [navSegs, lookupK_insertK_self]
              have hstep0 : ∀ L, navSegs (Value.obj m)
                  (Seg.property k :: L) = navSegs child L := by
                intro L
                simp [navSegs, hl]
              refine ⟨?_, ?_⟩
              · intro k2 hk2
                rw [hlast] at hk2
                rw [hstep]
                exact ihc.1 k2 hk2
              · intro i hi
                rw [hlast] at hi
                have ihi := ihc.2 i hi
                refine ⟨?_, ?_⟩
                · rw [hstep]
                  exact ihi.1
                · intro xs hxs
                  rw [hdrop] at hxs ⊢
                  rw [hstep0] at hxs
                  rw [hstep]
                  exact ihi.2 xs hxs
        | null => simp [delSegs] at h
        | bool b => simp [delSegs] at h
        | num n => simp [delSegs] at h
        | str s3 => simp [delSegs] at h
        | arr xs => simp [delSegs] at h
      | index j =>
        cases data with
        | arr xs0 =>
          by_cases hb : j < xs0.length
          · cases hrec : delSegs xs0[j] (s2 :: rest2) with
            | error e => simp [delSegs, hb, hrec] at h
            | ok child2 =>
              simp [delSegs, hb, hrec] at h
              subst h
              have ihc := ih xs0[j] child2 hrec
              have hlen2 : j < (xs0.set j child2).length := by simpa using hb
              have hget := getElem_set_self' xs0 j child2 hlen2
              have hstep : ∀ L, navSegs (Value.arr (xs0.set j child2))
                  (Seg.index j :: L) = navSegs child2 L := by
                intro L
                simp [navSegs, hlen2, hget, hb]
              have hstep0 : ∀ L, navSegs (Value.arr xs0)
                  (Seg.index j :: L) = navSegs xs0[j] L := by
                intro L
                simp [navSegs, hb]
              refine ⟨?_, ?_⟩
              · intro k2 hk2
                rw [hlast] at hk2
                rw [hstep]
                exact ihc.1 k2 hk2
              · intro i hi
                rw [hlast] at hi
                have ihi := ihc.2 i hi
                refine ⟨?_, ?_⟩
                · rw [hstep]
                  exact ihi.1
                · intro xs hxs
                  rw [hdrop] at hxs ⊢
                  rw [hstep0] at hxs
                  rw [hstep]
                  exact ihi.2 xs hxs
          · simp [delSegs, hb] at h
        | null => simp [delSegs] at h
        | bool b => simp [delSegs] at h
        | num n => simp [delSegs] at h
        | str s3 => simp [delSegs] at h
        | obj m => simp [delSegs] at h

theorem condAllOk_eq_all (m : List (String × Value)) (conds : List (String × String)) :
    condAllOk m conds = conds.all (fun c =>
      match lookupK c.1 m with
      | some field => strTrim (goFormat field) == c.2
      | none => false) := by
  induction conds with
  | nil => rfl
  | cons c rest ih =>
    cases hf : lookupK c.1 m with
    | none => simp [condAllOk, hf]
    | some field =>
      by_cases heq : strTrim (goFormat field) = c.2
      · simp [condAllOk, hf, heq, ih]
      · simp [condAllOk, hf, heq]

theorem keepMatching_eq_filter (conds : List (String × String)) (xs : List Value) :
    keepMatching conds xs = xs.filter (specKeepsElement conds) := by
  induction xs with
  | nil => rfl
  | cons item rest ih =>
    cases item with
    | obj m =>
      have he : specKeepsElement conds (.obj m) = condAllOk m conds := by
        simp [specKeepsElement, condAllOk_eq_all]
      by_cases hc : condAllOk m conds
      · simp [keepMatching, hc, List.filter_cons, he, ih]
      · simp [keepMatching, hc, List.filter_cons, he, ih]
    | null => simp [keepMatching, List.filter_cons, specKeepsElement, ih]
    | bool b => simp [keepMatching, List.filter_cons, specKeepsElement, ih]
    | num n => simp [keepMatching, List.filter_cons, specKeepsElement, ih]
    | str s => simp [keepMatching, List.filter_cons, specKeepsElement, ih]
    | arr ys => simp [keepMatching, List.filter_cons, specKeepsElement, ih]

theorem setSegs_obj_ok (m : List (String × Value)) (segs : List Seg) (v r : Value)
    (h : setSegs (.obj m) segs v = .ok r) : r.isObjB = true := by
  cases segs with
  | nil => simp [setSegs] at h
  | cons s rest =>
    cases rest with
    | nil =>
      cases s with
      | property k =>
        simp [setSegs, setFinal] at h
        subst h
        rfl
      | index i => simp [setSegs, setFinal] at h
      | wildcard => simp [setSegs, setFinal] at h
      | root => simp [setSegs, setFinal] at h
    | cons s2 rest2 =>
      cases s with
      | property k =>
        cases hl : lookupK k m with
        | some child =>
          cases hrec : setSegs child (s2 :: rest2) child with
          | ok c2 =>
            simp [setSegs, hl, hrec] at h
            subst h
            rfl
          | error e => simp [setSegs, hl, hrec] at h
        | none =>
          cases s2 with
          | property k2 =>
            cases hrec : setSegs (.obj []) (Seg.property k2 :: rest2) (.obj []) with
            | ok c2 =>
              simp [setSegs, hl, hrec] at h
              subst h
              rfl
            | error e => simp [setSegs, hl, hrec] at h
          | index i =>
            cases hrec : setSegs (.arr (List.replicate (i + 1) .null))
                (Seg.index i :: rest2) (.arr (List.replicate (i + 1) .null)) with
            | ok c2 =>
              simp [setSegs, hl, hrec] at h
              subst h
              rfl
            | error e => simp [setSegs, hl, hrec] at h
          | wildcard => simp [setSegs, hl] at h
          | root => simp [setSegs, hl] at h
      | index i => simp [setSegs] at h
      | wildcard => simp [setSegs] at h
      | root => simp [setSegs] at h

theorem delSegs_obj_ok (m : List (String × Value)) (segs : List Seg) (r : Value)
    (h : delSegs (.obj m) segs = .ok r) : r.isObjB = true := by
  cases segs with
  | nil => simp [delSegs] at h
  | cons s rest =>
    cases rest with
    | nil =>
      cases s with
      | property k =>
        cases hl : lookupK k m with
        | some child =>
          simp [delSegs, delFinal, hl] at h
          subst h
          rfl
        | none => simp [delSegs, delFinal, hl] at h
      | index i => simp [delSegs, delFinal] at h
      | wildcard => simp [delSegs, delFinal] at h
      | root => simp [delSegs, delFinal] at h
    | cons s2 rest2 =>
      cases s with
      | property k =>
        cases hl : lookupK k m with
        | some child =>
          cases hrec : delSegs child (s2 :: rest2) with
          | ok c2 =>
            simp [delSegs, hl, hrec] at h
            subst h
            rfl
          | error e => simp [delSegs, hl, hrec] at h
        | none => simp [delSegs, hl] at h
      | index i => simp [delSegs] at h
      | wildcard => simp [delSegs] at h
      | root => simp [delSegs] at h

/-- Claim C1: the spec's set-then-get round trip (`Get(T,P)` returns `v`
after a successful `Set(T,P,v)`) fails on the code — evaluated at the
failing input `T = {}`, `P = ".a.b.c"`, `v = 42`, the set succeeds but the
variable shadowing in `setValueBySegments` stores the intermediate mapping
at the final key, so the get returns that mapping, not `42`. -/
theorem claim_C1_set_get_eval :
    matcherSet (.obj []) (".a.b.c") (.num 42) =
      .ok (.obj [("b", .obj [("c", .obj [])])]) ∧
    matcherGet (.obj [("b", .obj [("c", .obj [])])]) (".a.b.c") =
      .ok (.obj []) ∧
    Value.obj [] ≠ Value.num 42 :=
  ⟨rfl, rfl, fun h => Value.noConfusion h⟩

/-- Claim C2: with no filter expressions, `NewClient` installs the single
default filter `.`; but that filter does not match everything — evaluated
at the changed path `.data.users`, `ShouldNotify` returns `false`
(it returns `true` only for the paths `""` and `"."`), contradicting the
claim and the code's own comment that the default filter matches
everything. -/
theorem claim_C2_default_filter_eval :
    newClientFilters [] = [⟨".", ".", []⟩] ∧
    shouldNotify (newClientFilters []) (".data.users")
      (.obj [("data", .obj [("users", .arr [.num 1])])]) = false ∧
    shouldNotify (newClientFilters []) (".") (.obj []) = true :=
  ⟨rfl, rfl, rfl⟩

/-- Claim C3, counterexample: the claim says `Parse` rejects every string
outside the grammar, including the unbalanced `".users[0"`; the code parses
it without error (to the bare root), because the token scan silently skips
text that matches no segment form. -/
theorem claim_C3_counterexample : parse (".users[0") = .ok [.root] := rfl

/-- Claim C3, amended: `Parse` maps `""` and `"."` to the singleton root
and rejects any other path that does not start with a dot; but for paths
starting with a dot it only collects the substrings matching a segment
form and silently skips the rest (so `".users[0"` and `".a[x]"` parse
without error), and it errors only when a dot-led token contains a
non-word character. -/
theorem claim_C3_parse_amended :
    parse ("") = .ok [.root] ∧
    parse (".") = .ok [.root] ∧
    (∀ s : String, s ≠ "" → strHasPre s (".") = false →
      parse s = .error .mustStartWithDot) ∧
    parse (".users[0") = .ok [.root] ∧
    parse (".a[x]") = .ok [.root] ∧
    parse (".x.a-b") = .error (.invalidSegment (".a-b")) := by
  refine ⟨rfl, rfl, ?_, rfl, rfl, rfl⟩
  intro s hne hpre2
  have h1 : ¬(s = "" ∨ s = ".") := by
    rintro (h | h)
    · exact hne h
    · subst h
      exact absurd hpre2 (by decide)
  simp [parse, h1, hpre2]

/-- Witness for the quantified part of the amended claim C3, at the
concrete dotless input from the repository's own tests. -/
theorem claim_C3_witness : parse ("users[0") = .error .mustStartWithDot :=
  claim_C3_parse_amended.2.2.1 ("users[0") (by decide) (by decide)

/-- Claim C4, counterexample: the claim says a missing intermediate key
followed by a numeric index makes `Set` fail with `PathNotFound` and never
creates an array; on `T = {}`, `P = ".x.a[2]"` the code succeeds and
creates a three-slot array at the missing key. -/
theorem claim_C4_counterexample :
    matcherSet (.obj []) (".x.a[2]") (.num 7) =
      .ok (.obj [("a", .arr [.null, .null, .arr [.null, .null, .null]])]) := rfl

/-- Claim C4, amended: during `Set`, a missing intermediate key followed by
a property segment gets a fresh empty mapping, and a missing key followed
by the index `i` gets a fresh array of length `i + 1` (no `PathNotFound`);
an index outside the bounds of an existing sequence still fails with
`PathNotFound`, both at the final segment and while navigating. -/
theorem claim_C4_amended (m : List (String × Value)) (k : String) (i : Nat)
    (v : Value) (hmiss : lookupK k m = none) :
    (∀ k2, setSegs (.obj m) [.property k, .property k2] v =
        .ok (.obj (insertK k (.obj [(k2, .obj [])]) m))) ∧
    (∃ elems : List Value,
        setSegs (.obj m) [.property k, .index i] v =
          .ok (.obj (insertK k (.arr elems) m)) ∧ elems.length = i + 1) ∧
    (∀ xs : List Value, xs.length ≤ i →
        setSegs (.arr xs) [.index i] v = .error .pathNotFound) ∧
    (∀ (xs : List Value) (s2 : Seg) (rest : List Seg), xs.length ≤ i →
        setSegs (.arr xs) (.index i :: s2 :: rest) v = .error .pathNotFound) := by
  refine ⟨?_, ?_, ?_, ?_⟩
  · intro k2
    simp [setSegs, setFinal, hmiss, insertK]
  · refine ⟨(List.replicate (i + 1) Value.null).set i
      (.arr (List.replicate (i + 1) Value.null)), ?_, by simp⟩
    have hlt : i < (List.replicate (i + 1) Value.null).length := by simp
    simp [setSegs, setFinal, hmiss, hlt]
  · intro xs hle
    have hnlt : ¬ i < xs.length := by omega
    simp [setSegs, setFinal, hnlt]
  · intro xs s2 rest hle
    have hnlt : ¬ i < xs.length := by omega
    simp [setSegs, hnlt]

/-- Witness for the amended claim C4 at `m = {}`, `k = "a"`, `i = 2`. -/
theorem claim_C4_witness :
    (∃ elems : List Value,
        setSegs (.obj []) [.property ("a"), .index 2] (.num 7) =
          .ok (.obj (insertK ("a") (.arr elems) [])) ∧ elems.length = 3) ∧
    setSegs (.arr [.null]) [.index 2] (.num 7) = .error .pathNotFound := by
  have h := claim_C4_amended [] ("a") 2 (.num 7) rfl
  exact ⟨h.2.1, h.2.2.1 [.null] (by decide)⟩

/-- Claim C5: for a wildcard-free path accepted by `Parse`, once `Set`
succeeds on `T` and `Delete` succeeds on the result, `Get` at the same path
fails with `PathNotFound` when the final segment is a property (the entry
was removed), and returns null when the final segment is a sequence index,
the containing sequence keeping its length. -/
theorem claim_C5_delete_after_set
    (T v T1 T2 : Value) (P : String) (segs : List Seg)
    (hp : parse P = .ok (Seg.root :: segs))
    (hw : ∀ s ∈ segs, s ≠ Seg.wildcard)
    (hset : matcherSet T P v = .ok T1)
    (hdel : matcherDelete T1 P = .ok T2) :
    (∀ k, segs.getLast? = some (.property k) →
       matcherGet T2 P = .error .pathNotFound) ∧
    (∀ i, segs.getLast? = some (.index i) →
       matcherGet T2 P = .ok .null ∧
       ∀ xs, navSegs T1 segs.dropLast = .ok (.arr xs) →
         ∃ xs', navSegs T2 segs.dropLast = .ok (.arr xs') ∧
           xs'.length = xs.length) := by
  have hdel2 : delSegs T1 segs = .ok T2 := by
    simpa [matcherDelete, hp] using hdel
  have hget : matcherGet T2 P = navSegs T2 segs := by
    simp [matcherGet, hp]
  have hmain := delSegs_nav segs T1 T2 hdel2
  refine ⟨?_, ?_⟩
  · intro k hk
    rw [hget]
    exact hmain.1 k hk
  · intro i hi
    have h2 := hmain.2 i hi
    refine ⟨by rw [hget]; exact h2.1, ?_⟩
    intro xs hxs
    exact ⟨xs.set i .null, h2.2 xs hxs, by simp⟩

/-- Witness for claim C5 on the concrete run
`T = {"b": [1,2,3]}`, `P = ".a.b[1]"`, `v = 9` (an index-final path): after
the successful set and delete, the get returns null and the parent
sequence still has three slots. -/
theorem claim_C5_witness :
    matcherGet (.obj [("b", .arr [.num 1, .null, .num 3])]) (".a.b[1]") =
      .ok .null ∧
    (∃ xs', navSegs (.obj [("b", .arr [.num 1, .null, .num 3])])
        [Seg.property ("b")] = .ok (.arr xs') ∧ xs'.length = 3) := by
  have h := claim_C5_delete_after_set
    (.obj [("b", .arr [.num 1, .num 2, .num 3])]) (.num 9)
    (.obj [("b", .arr [.num 1, .arr [.num 1, .num 2, .num 3], .num 3])])
    (.obj [("b", .arr [.num 1, .null, .num 3])])
    (".a.b[1]") [.property ("b"), .index 1]
    rfl (by decide) rfl rfl
  have h2 := (h.2 1 rfl)
  exact ⟨h2.1, h2.2 [.num 1, .arr [.num 1, .num 2, .num 3], .num 3] rfl⟩

/-- Claim C6: the claim says `Match` with a wildcard returns one result per
sequence element with the wildcard replaced by the element's decimal index;
evaluated on the repository's own test tree and path `.users[*]`, the code
returns no results at all (the leading property token is dropped after the
dot strip, so the wildcard is applied to the root mapping), and where the
wildcard does align (`.x.b[*]`), the concrete paths embed the rune with
code point `i` (Go `string(i)`), e.g. `".b[\x00]"`, not the decimal
`".b[0]"`. -/
theorem claim_C6_match_eval :
    matcherMatch (.obj [("users", .arr
        [.obj [("name", .str ("Alice"))], .obj [("name", .str ("Bob"))]])])
      (".users[*]") = .ok [] ∧
    matcherMatch (.obj [("b", .arr [.num 1, .num 2])]) (".x.b[*]") =
      .ok [⟨".b[\x00]", .num 1⟩, ⟨".b[\x01]", .num 2⟩] :=
  ⟨rfl, rfl⟩

/-- Claim C7, counterexample: the claim says an element is kept exactly
when its stringified field values equal the predicate values; the code
trims surrounding white space from the stringified field first, so the
element `{"k": " abc"}` is kept under the predicate `k=abc` although its
stringified value `" abc"` differs from `"abc"`. -/
theorem claim_C7_counterexample :
    applyKeyValueFilters (.arr [.obj [("k", .str (" abc"))]]) [("k", "abc")] =
      (.arr [.obj [("k", .str (" abc"))]], true) ∧
    goFormat (.str (" abc")) ≠ "abc" := by
  constructor
  · simp [applyKeyValueFilters, keepMatching, condAllOk, goFormat]
    rfl
  · simp [goFormat]

/-- Claim C7, amended: filtering a sequence by a nonempty predicate list
keeps exactly the elements that are mappings in which every predicate key
exists and the stringified field value, after trimming surrounding white
space, equals the predicate value; the kept elements appear in source
order (the result is a `List.filter` of the input). -/
theorem claim_C7_predicate_filter (xs : List Value)
    (conds : List (String × String)) (h : conds ≠ []) :
    applyKeyValueFilters (.arr xs) conds =
      (.arr (xs.filter (specKeepsElement conds)), true) := by
  have hne : conds.isEmpty = false := by
    cases conds with
    | nil => exact absurd rfl h
    | cons c rest => rfl
  simp [applyKeyValueFilters, hne, keepMatching_eq_filter]

/-- Witness for the amended claim C7 on the spec's own predicate example:
`positions = [{trader:"abc",amt:10},{trader:"xyz",amt:20}]` filtered by
`trader=abc` keeps exactly the first element. -/
theorem claim_C7_witness :
    applyKeyValueFilters
      (.arr [.obj [("trader", .str ("abc")), ("amt", .num 10)],
             .obj [("trader", .str ("xyz")), ("amt", .num 20)]])
      [("trader", "abc")] =
    (.arr [.obj [("trader", .str ("abc")), ("amt", .num 10)]], true) := by
  rw [claim_C7_predicate_filter _ _ (by decide)]
  simp [List.filter, specKeepsElement, lookupK, goFormat]
  rfl

/-- Claim C8: the store's root is always a mapping.  Setting the root with
a non-mapping value fails with `InvalidOperation` (the error return leaves
the tree untouched); every successful non-root `Set` or `Delete` on a
mapping root yields a mapping root again (in Go this is the in-place
mutation of the typed `data` map); `Initialize` installs a mapping by
type; `Get` does not mutate the tree at all. -/
theorem claim_C8_root_mapping (m : List (String × Value)) (p : String) (v : Value) :
    (v.isObjB = false →
      kvSet m ("") v = .error .invalidOperation ∧
      kvSet m (".") v = .error .invalidOperation) ∧
    (∀ r, matcherSet (.obj m) p v = .ok r → r.isObjB = true) ∧
    (∀ r, matcherDelete (.obj m) p = .ok r → r.isObjB = true) ∧
    (kvInitialize m).isObjB = true := by
  refine ⟨?_, ?_, ?_, rfl⟩
  · intro hv
    cases v with
    | obj o => simp [Value.isObjB] at hv
    | null => exact ⟨rfl, rfl⟩
    | bool b => exact ⟨rfl, rfl⟩
    | num n => exact ⟨rfl, rfl⟩
    | str s => exact ⟨rfl, rfl⟩
    | arr xs => exact ⟨rfl, rfl⟩
  · intro r h
    cases hp : parse p with
    | error e => simp [matcherSet, hp] at h
    | ok segs =>
      simp [matcherSet, hp] at h
      exact setSegs_obj_ok m segs.tail v r h
  · intro r h
    cases hp : parse p with
    | error e => simp [matcherDelete, hp] at h
    | ok segs =>
      simp [matcherDelete, hp] at h
      exact delSegs_obj_ok m segs.tail r h

/-- Witness for claim C8 at a concrete store, path and non-mapping value. -/
theorem claim_C8_witness :
    kvSet [("a", .num 1)] (".") (.num 3) = .error .invalidOperation ∧
    Value.isObjB (.obj [("a", .num 1), ("b", .num 3)]) = true := by
  have h := claim_C8_root_mapping [("a", .num 1)] (".a.b") (.num 3)
  exact ⟨(h.1 rfl).2, h.2.1 (.obj [("a", .num 1), ("b", .num 3)]) rfl⟩

/-- Claim C9: for a live subscriber whose message buffer (capacity 100) is
full, `Send` returns the queue-full error, enqueues nothing and leaves the
buffered frames untouched — the returned state is exactly the input state.
(The non-blocking `select` of the source is the immediate drop branch
here.) -/
theorem claim_C9_drop_on_full (st : ClientState) (event : String) (d : SendData)
    (halive : st.ctxCancelled = false)
    (hfull : st.messageChan.length = messageCap) :
    send st event d = (st, .error .queueFull) := by
  have hnlt : ¬ st.messageChan.length < messageCap := by omega
  simp [send, halive, hnlt]

/-- Witness for claim C9: a concrete client with 100 buffered frames. -/
theorem claim_C9_witness :
    send ⟨[], false, List.replicate 100 ("m")⟩ ("update") (.str ("x")) =
      (⟨[], false, List.replicate 100 ("m")⟩, .error .queueFull) :=
  claim_C9_drop_on_full _ _ _ rfl (by simp [messageCap])

/-- Claim C10: on the memory store, for any path whose cleaned form starts
`.data.` or `data.` and whose final dot-separated component names a key of
the top-level `data` mapping, `Get` returns that key's value directly
(with the extracted predicate conditions applied), ignoring every
intermediate component, and `FindMatches` takes the same shortcut,
returning a single result carrying the original path. -/
theorem claim_C10_data_shortcut
    (store dm : List (String × Value)) (P : String)
    (conds : List String) (clean : String) (parts : List String)
    (k : String) (v : Value)
    (hex : extractGate P = (conds, clean))
    (hpre : (strHasPre clean (".data.") || strHasPre clean ("data.")) = true)
    (hparts : strSplitChar clean '.' = parts)
    (hlen : parts.length > 1)
    (hlast : parts.getLast? = some k)
    (hdata : lookupK ("data") store = some (.obj dm))
    (hk : lookupK k dm = some v) :
    kvGet store P = .ok (applyKeyValueFiltering v conds) ∧
    kvFindMatches store P = .ok [⟨P, applyKeyValueFiltering v conds⟩] := by
  have happ : (if conds.isEmpty then v else applyKeyValueFiltering v conds) =
      applyKeyValueFiltering v conds := by
    cases conds with
    | nil => simp [applyKeyValueFiltering]
    | cons c rest => rfl
  have hshort : dataShortcut store clean conds =
      some (applyKeyValueFiltering v conds) := by
    simp only [dataShortcut, hpre, if_true, hparts, hlast, hdata, hk, hlen,
      gt_iff_lt, if_pos]
    rw [happ]
  constructor
  · simp only [kvGet, hex]
    rw [hshort]
  · simp only [kvFindMatches, hex]
    rw [hshort]

/-- Witness for claim C10: the store `{"data": {"b": 5}}` and the path
`".data.a.b"` — the component `"a"` exists nowhere, yet both `Get` and
`FindMatches` return `data["b"]`. -/
theorem claim_C10_witness :
    kvGet [("data", .obj [("b", .num 5)])] (".data.a.b") = .ok (.num 5) ∧
    kvFindMatches [("data", .obj [("b", .num 5)])] (".data.a.b") =
      .ok [⟨".data.a.b", .num 5⟩] := by
  have h := claim_C10_data_shortcut [("data", .obj [("b", .num 5)])]
    [("b", .num 5)] (".data.a.b") [] (".data.a.b") ["", "data", "a", "b"]
    ("b") (.num 5) rfl rfl rfl (by decide) rfl rfl rfl
  exact h

end GoSSE
